import Mathlib

/-
Verification of the makudoku-web server core (src/main.rs): the variant wire
encoding, the clue-digging orchestrator, solve verification and the admin
create operation.  The external makudoku engine (solver, uniqueness oracle,
SimpleRng) and the SQLite store are modelled as abstract parameters / explicit
state, exactly as the spec declares them external collaborators.
-/

namespace Makudoku

set_option maxRecDepth 200000

/-- JSON values as the server handles them through serde_json: the only
numeric payloads the handlers read are integers via as_u64, modelled as Int. -/
inductive Json where
  | null
  | bool (b : Bool)
  | num (n : Int)
  | str (s : String)
  | arr (elems : List Json)
  | obj (fields : List (String × Json))

/-- Field lookup on a JSON object, serde_json Value::get(key). -/
def Json.getField : Json → String → Option Json
  | .obj fields, key => fields.lookup key
  | _, _ => none

/-- serde_json Value::as_array. -/
def Json.as_array : Json → Option (List Json)
  | .arr elems => some elems
  | _ => none

/-- serde_json Value::as_str. -/
def Json.as_str : Json → Option String
  | .str s => some s
  | _ => none

/-- serde_json Value::as_bool. -/
def Json.as_bool : Json → Option Bool
  | .bool b => some b
  | _ => none

/-- serde_json Value::as_u64: succeeds exactly on non-negative integers. -/
def Json.as_u64 : Json → Option Nat
  | .num n => if 0 ≤ n then some n.toNat else none
  | _ => none

@[simp]
theorem except_ok_bind {ε α β : Type} (a : α) (f : α → Except ε β) :
    (Except.ok a >>= f) = f a := rfl

@[simp]
theorem except_err_bind {ε α β : Type} (e : ε) (f : α → Except ε β) :
    ((Except.error e : Except ε α) >>= f) = .error e := rfl

@[simp]
theorem except_pure_eq_ok {ε α : Type} (a : α) : (pure a : Except ε α) = .ok a := rfl

instance {ε α : Type} [DecidableEq ε] [DecidableEq α] : DecidableEq (Except ε α) := fun x y =>
  match x, y with
  | .error e, .error f =>
    if h : e = f then .isTrue (congrArg Except.error h)
    else .isFalse fun hc => h (Except.error.inj hc)
  | .ok a, .ok b =>
    if h : a = b then .isTrue (congrArg Except.ok h)
    else .isFalse fun hc => h (Except.ok.inj hc)
  | .error _, .ok _ => .isFalse fun hc => Except.noConfusion hc
  | .ok _, .error _ => .isFalse fun hc => Except.noConfusion hc

/-- VariantSpec of the makudoku engine crate as consumed by main.rs: cells are
(row, col) pairs of usize, the killer sum is a u8 (a Nat taken mod 256 on the
decoding cast). -/
inductive VariantSpec where
  | KropkiWhite (a b : Nat × Nat)
  | KropkiBlack (a b : Nat × Nat)
  | Thermo (path : List (Nat × Nat))
  | Arrow (path : List (Nat × Nat))
  | Killer (cells : List (Nat × Nat)) (sum : Nat) (no_repeats : Bool)
  | King
  | Knight
  | Queen
deriving DecidableEq

/-- parse_cell from main.rs. -/
def parse_cell (value : Json) : Except String (Nat × Nat) :=
  match value.as_array with
  | none => .error "cell must be a [row, col] array"
  | some arr =>
    if arr.length ≠ 2 then .error "cell must have two elements"
    else
      match (arr.getD 0 .null).as_u64 with
      | none => .error "row must be an integer"
      | some r =>
        match (arr.getD 1 .null).as_u64 with
        | none => .error "col must be an integer"
        | some c => .ok (r, c)

/-- Loop body of parse_path: parse every cell in order, first error wins. -/
def parse_cells : List Json → Except String (List (Nat × Nat))
  | [] => .ok []
  | cell :: rest => do
    let c ← parse_cell cell
    let cs ← parse_cells rest
    .ok (c :: cs)

/-- parse_path from main.rs: an array of cells that must be non-empty. -/
def parse_path (value : Json) : Except String (List (Nat × Nat)) :=
  match value.as_array with
  | none => .error "path must be an array of cells"
  | some arr => do
    let out ← parse_cells arr
    if out.isEmpty then .error "path must have at least one cell" else .ok out

/-- Loop body of constraints_from_json from main.rs: decode one constraint
object by its type discriminator. -/
def constraint_from_json (item : Json) : Except String VariantSpec :=
  match (item.getField "type").bind Json.as_str with
  | none => .error "constraint missing type"
  | some kind =>
    match kind with
    | "kropki_white" =>
      match item.getField "a" with
      | none => .error "kropki_white missing a"
      | some av => do
        let a ← parse_cell av
        match item.getField "b" with
        | none => .error "kropki_white missing b"
        | some bv => do
          let b ← parse_cell bv
          return .KropkiWhite a b
    | "kropki_black" =>
      match item.getField "a" with
      | none => .error "kropki_black missing a"
      | some av => do
        let a ← parse_cell av
        match item.getField "b" with
        | none => .error "kropki_black missing b"
        | some bv => do
          let b ← parse_cell bv
          return .KropkiBlack a b
    | "thermo" =>
      match item.getField "path" with
      | none => .error "thermo missing path"
      | some pv => do
        let path ← parse_path pv
        return .Thermo path
    | "arrow" =>
      match item.getField "path" with
      | none => .error "arrow missing path"
      | some pv => do
        let path ← parse_path pv
        return .Arrow path
    | "killer" =>
      match item.getField "cells" with
      | none => .error "killer missing cells"
      | some cv => do
        let cells ← parse_path cv
        match (item.getField "sum").bind Json.as_u64 with
        | none => .error "killer missing sum"
        | some sum =>
          let no_repeats := ((item.getField "no_repeats").bind Json.as_bool).getD true
          return .Killer cells (sum % 256) no_repeats
    | "king" => .ok .King
    | "knight" => .ok .Knight
    | "queen" => .ok .Queen
    | other => .error ("unknown constraint type: " ++ other)

/-- constraints_from_json from main.rs. -/
def constraints_from_json : List Json → Except String (List VariantSpec)
  | [] => .ok []
  | item :: rest => do
    let spec ← constraint_from_json item
    let specs ← constraints_from_json rest
    return spec :: specs

/-- Cell encoding used by variant_specs_to_json: the two-element array [r, c]. -/
def cellToJson (c : Nat × Nat) : Json := .arr [.num c.1, .num c.2]

/-- Body of variant_specs_to_json from main.rs for one spec. -/
def variant_spec_to_json : VariantSpec → Json
  | .KropkiWhite a b =>
    .obj [("type", .str "kropki_white"), ("a", cellToJson a), ("b", cellToJson b)]
  | .KropkiBlack a b =>
    .obj [("type", .str "kropki_black"), ("a", cellToJson a), ("b", cellToJson b)]
  | .Thermo path =>
    .obj [("type", .str "thermo"), ("path", .arr (path.map cellToJson))]
  | .Arrow path =>
    .obj [("type", .str "arrow"), ("path", .arr (path.map cellToJson))]
  | .Killer cells sum no_repeats =>
    .obj [("type", .str "killer"), ("cells", .arr (cells.map cellToJson)),
          ("sum", .num sum), ("no_repeats", .bool no_repeats)]
  | .King => .obj [("type", .str "king")]
  | .Knight => .obj [("type", .str "knight")]
  | .Queen => .obj [("type", .str "queen")]

/-- variant_specs_to_json from main.rs. -/
def variant_specs_to_json (specs : List VariantSpec) : List Json :=
  specs.map variant_spec_to_json

/-- Well-formedness of a VariantSpec as the engine produces them: paths and
killer cages are non-empty and the killer sum fits in a u8. -/
def VariantSpec.wf : VariantSpec → Prop
  | .Thermo path => path ≠ []
  | .Arrow path => path ≠ []
  | .Killer cells sum _ => cells ≠ [] ∧ sum < 256
  | _ => True

theorem parse_cell_cellToJson (c : Nat × Nat) : parse_cell (cellToJson c) = .ok c := by
  obtain ⟨r, col⟩ := c
  simp [parse_cell, cellToJson, Json.as_array, Json.as_u64]

theorem parse_cells_map (cells : List (Nat × Nat)) :
    parse_cells (cells.map cellToJson) = .ok cells := by
  induction cells with
  | nil => rfl
  | cons c rest ih => simp [parse_cells, parse_cell_cellToJson, ih]

theorem parse_path_map (path : List (Nat × Nat)) (h : path ≠ []) :
    parse_path (.arr (path.map cellToJson)) = .ok path := by
  simp [parse_path, Json.as_array, parse_cells_map, h]

theorem constraint_roundtrip (s : VariantSpec) (hs : s.wf) :
    constraint_from_json (variant_spec_to_json s) = .ok s := by
  cases s with
  | KropkiWhite a b =>
    simp [variant_spec_to_json, constraint_from_json, Json.getField, Json.as_str,
      List.lookup, parse_cell_cellToJson]
  | KropkiBlack a b =>
    simp [variant_spec_to_json, constraint_from_json, Json.getField, Json.as_str,
      List.lookup, parse_cell_cellToJson]
  | Thermo path =>
    simp only [VariantSpec.wf] at hs
    simp [variant_spec_to_json, constraint_from_json, Json.getField, Json.as_str,
      List.lookup, parse_path_map _ hs]
  | Arrow path =>
    simp only [VariantSpec.wf] at hs
    simp [variant_spec_to_json, constraint_from_json, Json.getField, Json.as_str,
      List.lookup, parse_path_map _ hs]
  | Killer cells sum no_repeats =>
    obtain ⟨hc, hsum⟩ := hs
    simp [variant_spec_to_json, constraint_from_json, Json.getField, Json.as_str,
      List.lookup, Json.as_u64, Json.as_bool, parse_path_map _ hc, Nat.mod_eq_of_lt hsum]
  | King => rfl
  | Knight => rfl
  | Queen => rfl

/-- C1: round-trip law for the variant wire encoding — parsing the wire
encoding of any well-formed VariantSpec list yields exactly the same list,
order-preserving and with no field loss. -/
theorem constraints_roundtrip (specs : List VariantSpec) (h : ∀ s ∈ specs, s.wf) :
    constraints_from_json (variant_specs_to_json specs) = .ok specs := by
  induction specs with
  | nil => rfl
  | cons s rest ih =>
    have hs : s.wf := h s (by simp)
    have hrest := ih fun t ht => h t (by simp [ht])
    simp only [variant_specs_to_json, List.map_cons, constraints_from_json,
      constraint_roundtrip s hs, except_ok_bind]
    simp only [variant_specs_to_json] at hrest
    simp [hrest]

/-- C1 witness: the round-trip law applied to a concrete list covering one
spec of each shape. -/
theorem constraints_roundtrip_witness :
    (∀ s ∈ [VariantSpec.KropkiWhite (0, 1) (0, 2), VariantSpec.Thermo [(3, 3), (3, 4)],
        VariantSpec.Killer [(8, 8)] 9 true, VariantSpec.King], s.wf) ∧
    constraints_from_json (variant_specs_to_json
        [VariantSpec.KropkiWhite (0, 1) (0, 2), VariantSpec.Thermo [(3, 3), (3, 4)],
         VariantSpec.Killer [(8, 8)] 9 true, VariantSpec.King]) =
      .ok [VariantSpec.KropkiWhite (0, 1) (0, 2), VariantSpec.Thermo [(3, 3), (3, 4)],
           VariantSpec.Killer [(8, 8)] 9 true, VariantSpec.King] := by
  refine ⟨?_, constraints_roundtrip _ ?_⟩ <;>
    · intro s hs
      fin_cases hs <;> simp [VariantSpec.wf]

/-- C9 counterexample: parse_cell performs no range check, so a kropki_white
constraint whose cell a is [42, 0] is accepted and the parsed variant carries
the out-of-range cell (42, 0), contrary to the claim that rows and columns at
or above 9 are rejected. -/
theorem parse_cell_accepts_out_of_range :
    constraints_from_json
        [Json.obj [("type", .str "kropki_white"), ("a", .arr [.num 42, .num 0]),
                   ("b", .arr [.num 0, .num 0])]] =
      .ok [VariantSpec.KropkiWhite (42, 0) (0, 0)] := by
  rfl

/-- C9 (amended): parse_cell accepts exactly the two-element arrays of
non-negative integers and returns the (row, col) pair verbatim — any other
value is rejected with a shape error — but it performs no upper-bound check,
so rows or columns at or above 9 are accepted. -/
theorem parse_cell_ok_iff :
    (∀ (v : Json) (r c : Nat), parse_cell v = .ok (r, c) ↔ v = .arr [.num r, .num c]) ∧
    (∀ v : Json, (∀ (r c : Nat), v ≠ .arr [.num r, .num c]) →
      ∃ e, parse_cell v = .error e) := by
  have main : ∀ (v : Json) (r c : Nat), parse_cell v = .ok (r, c) ↔ v = .arr [.num r, .num c] := by
    intro v r c
    constructor
    · intro h
      cases v with
      | null => exact absurd h (by simp [parse_cell, Json.as_array])
      | bool b => exact absurd h (by simp [parse_cell, Json.as_array])
      | num n => exact absurd h (by simp [parse_cell, Json.as_array])
      | str s => exact absurd h (by simp [parse_cell, Json.as_array])
      | obj fields => exact absurd h (by simp [parse_cell, Json.as_array])
      | arr elems =>
      rcases elems with _ | ⟨x, _ | ⟨y, _ | ⟨z, rest⟩⟩⟩
      · exact absurd h (by simp [parse_cell, Json.as_array])
      · exact absurd h (by simp [parse_cell, Json.as_array])
      case cons.cons.cons =>
        have hlen : (x :: y :: z :: rest).length ≠ 2 := by
          simp only [List.length_cons]
          omega
        exact absurd h (by simp [parse_cell, Json.as_array, hlen])
      cases x with
      | null => exact absurd h (by simp [parse_cell, Json.as_array, Json.as_u64])
      | bool b => exact absurd h (by simp [parse_cell, Json.as_array, Json.as_u64])
      | str s => exact absurd h (by simp [parse_cell, Json.as_array, Json.as_u64])
      | arr es => exact absurd h (by simp [parse_cell, Json.as_array, Json.as_u64])
      | obj fs => exact absurd h (by simp [parse_cell, Json.as_array, Json.as_u64])
      | num n =>
      have hy : ∀ (v : Json), (∀ k : Int, v ≠ .num k) →
          parse_cell (.arr [.num n, v]) ≠ .ok (r, c) := by
        intro v hv
        by_cases hn : (0 : Int) ≤ n <;>
          cases v <;> simp [parse_cell, Json.as_array, Json.as_u64, hn] <;>
            exact absurd rfl (hv _)
      cases y with
      | null => exact absurd h (hy _ (by intro k hk; cases hk))
      | bool b => exact absurd h (hy _ (by intro k hk; cases hk))
      | str s => exact absurd h (hy _ (by intro k hk; cases hk))
      | arr es => exact absurd h (hy _ (by intro k hk; cases hk))
      | obj fs => exact absurd h (hy _ (by intro k hk; cases hk))
      | num m =>
      by_cases hn : (0 : Int) ≤ n
      · by_cases hm : (0 : Int) ≤ m
        · simp [parse_cell, Json.as_array, Json.as_u64, hn, hm] at h
          obtain ⟨hr, hc⟩ := h
          have hn' : n = (r : Int) := by omega
          have hm' : m = (c : Int) := by omega
          rw [hn', hm']
        · exact absurd h (by simp [parse_cell, Json.as_array, Json.as_u64, hn, hm])
      · exact absurd h (by simp [parse_cell, Json.as_array, Json.as_u64, hn])
    · rintro rfl
      exact parse_cell_cellToJson (r, c)
  refine ⟨main, fun v hv => ?_⟩
  match hpc : parse_cell v with
  | .error e => exact ⟨e, rfl⟩
  | .ok (r, c) => exact absurd ((main v r c).mp hpc) (hv r c)

/-- C9 witness: the rejection half of the characterization applied at a
concrete non-array cell value. -/
theorem parse_cell_ok_iff_witness :
    ∃ e, parse_cell (Json.str "bad") = .error e :=
  parse_cell_ok_iff.2 (Json.str "bad") (fun r c h => Json.noConfusion h)

/-- Total swap of two positions, modelling slice::swap from Rust (in the
server every call has both indices in bounds). -/
def swapList {α : Type} (l : List α) (i j : Nat) : List α :=
  match l[i]?, l[j]? with
  | some a, some b => (l.set i b).set j a
  | _, _ => l

/-- Loop of shuffle_indices from main.rs: for index i from positions.len()-1
down to 1, draw j from the range [0, i] and swap positions i and j; the first
argument is the current value of i. -/
def shuffleFrom {σ : Type} (gen : Nat → σ → Nat × σ) :
    Nat → List Nat → σ → List Nat × σ
  | 0, positions, rng => (positions, rng)
  | i + 1, positions, rng =>
    let draw := gen (i + 2) rng
    shuffleFrom gen i (swapList positions (i + 1) draw.1) draw.2

/-- shuffle_indices from main.rs, a Fisher–Yates pass driven by the supplied
generator, where gen n rng draws uniformly from the range [0, n). -/
def shuffle_indices {σ : Type} (gen : Nat → σ → Nat × σ) (rng : σ)
    (positions : List Nat) : List Nat × σ :=
  if positions.length ≤ 1 then (positions, rng)
  else shuffleFrom gen (positions.length - 1) positions rng

theorem get_cons_set_perm {α : Type} (t : List α) :
    ∀ (k : Nat) (hk : k < t.length) (x : α),
      List.Perm (t.get ⟨k, hk⟩ :: t.set k x) (x :: t) := by
  induction t with
  | nil => intro k hk x; exact absurd hk (by simp)
  | cons y u ih =>
    intro k hk x
    cases k with
    | zero => simpa using List.Perm.swap x y u
    | succ k =>
      have hku : k < u.length := by simpa using hk
      have h1 : List.Perm (u.get ⟨k, hku⟩ :: y :: u.set k x)
          (y :: u.get ⟨k, hku⟩ :: u.set k x) :=
        List.Perm.swap y (u.get ⟨k, hku⟩) (u.set k x)
      have h2 : List.Perm (y :: u.get ⟨k, hku⟩ :: u.set k x) (y :: x :: u) :=
        (ih k hku x).cons y
      simpa using h1.trans (h2.trans (List.Perm.swap x y u))

theorem set_set_get_perm {α : Type} (l : List α) :
    ∀ (i j : Nat) (hi : i < l.length) (hj : j < l.length),
      List.Perm ((l.set i (l.get ⟨j, hj⟩)).set j (l.get ⟨i, hi⟩)) l := by
  induction l with
  | nil => intro i j hi; exact absurd hi (by simp)
  | cons x t ih =>
    intro i j hi hj
    cases i with
    | zero =>
      cases j with
      | zero => simp
      | succ j =>
        have hj' : j < t.length := by simpa using hj
        simpa using get_cons_set_perm t j hj' x
    | succ i =>
      have hi' : i < t.length := by simpa using hi
      cases j with
      | zero => simpa using get_cons_set_perm t i hi' x
      | succ j =>
        have hj' : j < t.length := by simpa using hj
        simpa using (ih i j hi' hj').cons x

theorem swapList_perm {α : Type} (l : List α) (i j : Nat) :
    List.Perm (swapList l i j) l := by
  unfold swapList
  cases hi : l[i]? with
  | none => cases l[j]? <;> exact List.Perm.refl l
  | some a =>
    cases hj : l[j]? with
    | none => exact List.Perm.refl l
    | some b =>
      rw [List.getElem?_eq_some] at hi hj
      obtain ⟨hi', ha⟩ := hi
      obtain ⟨hj', hb⟩ := hj
      have hp := set_set_get_perm l i j hi' hj'
      simp only [List.get_eq_getElem] at hp
      rw [ha, hb] at hp
      exact hp

theorem shuffleFrom_perm {σ : Type} (gen : Nat → σ → Nat × σ) :
    ∀ (n : Nat) (l : List Nat) (s : σ),
      List.Perm (shuffleFrom gen n l s).1 l := by
  intro n
  induction n with
  | zero => intro l s; exact List.Perm.refl l
  | succ n ih =>
    intro l s
    exact (ih _ _).trans (swapList_perm l (n + 1) (gen (n + 2) s).1)

/-- C6: shuffle_indices is the Fisher–Yates pass of the spec (by definition);
its output is a rearrangement containing exactly the elements of the input,
and identical generator state and input produce identical orderings. -/
theorem shuffle_indices_perm_det {σ : Type} (gen : Nat → σ → Nat × σ)
    (s t : σ) (ps qs : List Nat) (hst : s = t) (hpq : ps = qs) :
    List.Perm (shuffle_indices gen s ps).1 ps ∧
    shuffle_indices gen s ps = shuffle_indices gen t qs := by
  subst hst; subst hpq
  refine ⟨?_, rfl⟩
  unfold shuffle_indices
  split
  · exact List.Perm.refl ps
  · exact shuffleFrom_perm gen _ ps s

/-- C6 witness: the permutation and determinism facts at a concrete generator,
seed state and position list. -/
theorem shuffle_indices_perm_det_witness :
    (5 : Nat) = 5 ∧ ([10, 20, 30] : List Nat) = [10, 20, 30] ∧
    (List.Perm (shuffle_indices (fun n r => (r % n, r + 1)) 5 [10, 20, 30]).1 [10, 20, 30] ∧
     shuffle_indices (fun n r => (r % n, r + 1)) 5 [10, 20, 30] =
       shuffle_indices (fun n r => (r % n, r + 1)) 5 [10, 20, 30]) :=
  ⟨rfl, rfl, shuffle_indices_perm_det (fun n r => (r % n, r + 1)) 5 5 _ _ rfl rfl⟩

/-- NN from the makudoku crate: the 81 cells of the grid. -/
def NN : Nat := 81

/-- puzzle_vec_to_string from main.rs: digits render as the u8 sum b'0' + d
(hence mod 256), blanks as '.'; the string is modelled as its char list. -/
def puzzle_vec_to_string (puzzle : List (Option Nat)) : List Char :=
  puzzle.map fun cell =>
    match cell with
    | some d => Char.ofNat ((48 + d) % 256)
    | none => '.'

/-- Rendering of one cell, the match inside puzzle_vec_to_string. -/
def cellCh : Option Nat → Char
  | some d => Char.ofNat ((48 + d) % 256)
  | none => '.'

theorem puzzle_vec_to_string_eq_map (p : List (Option Nat)) :
    puzzle_vec_to_string p = p.map cellCh := rfl

/-- Trial loop of generate_puzzle_from_solution from main.rs: blank the cell,
ask the uniqueness oracle, restore the saved digit on failure, and stop as
soon as the clue count is at or below the target.  The external
has_unique_solution_with_specs (engine plus fixed variant set) is the
abstract oracle uniq, threading the rng state σ. -/
def digLoop {σ : Type} (uniq : List Char → σ → Bool × σ) (target_clues : Nat) :
    List Nat → List (Option Nat) → σ → List (Option Nat) × σ
  | [], puzzle, rng => (puzzle, rng)
  | pos :: rest, puzzle, rng =>
    let saved := puzzle.getD pos none
    let puzzle1 := puzzle.set pos none
    let res := uniq (puzzle_vec_to_string puzzle1) rng
    let puzzle2 := if res.1 then puzzle1 else puzzle1.set pos saved
    if puzzle2.countP (fun c => c.isSome) ≤ target_clues then (puzzle2, res.2)
    else digLoop uniq target_clues rest puzzle2 res.2

/-- generate_puzzle_from_solution from main.rs, over the abstract rng
(gen n rng draws from [0, n)) and the abstract uniqueness oracle. -/
def generate_puzzle_from_solution {σ : Type} (gen : Nat → σ → Nat × σ)
    (uniq : List Char → σ → Bool × σ) (solution : List Nat) (target_clues : Nat)
    (rng : σ) : Except String (List Char) :=
  if NN ≤ target_clues then .error "clue_target must be less than 81"
  else
    let puzzle : List (Option Nat) := solution.map some
    let shuffled := shuffle_indices gen rng (List.range NN)
    let dug := digLoop uniq target_clues shuffled.1 puzzle shuffled.2
    .ok (puzzle_vec_to_string dug.1)

/-- Record of one removal trial of the digging loop: the position tried, the
puzzle and rng state at the start of the trial, and the oracle's verdict. -/
structure DigEvent (σ : Type) where
  pos : Nat
  before : List (Option Nat)
  rngBefore : σ
  accepted : Bool

/-- digLoop instrumented with the trace of its removal trials; its first two
components coincide with digLoop. -/
def digLoopT {σ : Type} (uniq : List Char → σ → Bool × σ) (target_clues : Nat) :
    List Nat → List (Option Nat) → σ → List (Option Nat) × σ × List (DigEvent σ)
  | [], puzzle, rng => (puzzle, rng, [])
  | pos :: rest, puzzle, rng =>
    let saved := puzzle.getD pos none
    let puzzle1 := puzzle.set pos none
    let res := uniq (puzzle_vec_to_string puzzle1) rng
    let puzzle2 := if res.1 then puzzle1 else puzzle1.set pos saved
    let ev : DigEvent σ := ⟨pos, puzzle, rng, res.1⟩
    if puzzle2.countP (fun c => c.isSome) ≤ target_clues then (puzzle2, res.2, [ev])
    else
      let r := digLoopT uniq target_clues rest puzzle2 res.2
      (r.1, r.2.1, ev :: r.2.2)

/-- Trace of removal trials performed by generate_puzzle_from_solution. -/
def generate_events {σ : Type} (gen : Nat → σ → Nat × σ)
    (uniq : List Char → σ → Bool × σ) (solution : List Nat) (target_clues : Nat)
    (rng : σ) : List (DigEvent σ) :=
  if NN ≤ target_clues then []
  else
    let puzzle : List (Option Nat) := solution.map some
    let shuffled := shuffle_indices gen rng (List.range NN)
    (digLoopT uniq target_clues shuffled.1 puzzle shuffled.2).2.2

theorem getD_set_self_none :
    ∀ (l : List (Option Nat)) (i : Nat), (l.set i none).getD i none = none
  | [], _ => rfl
  | _ :: _, 0 => rfl
  | _ :: t, i + 1 => getD_set_self_none t i

theorem getD_set_ne {α : Type} :
    ∀ (l : List α) (i j : Nat) (a d : α), i ≠ j → (l.set i a).getD j d = l.getD j d := by
  intro l
  induction l with
  | nil => intro i j a d _; rfl
  | cons x t ih =>
    intro i j a d hij
    cases i with
    | zero =>
      cases j with
      | zero => exact absurd rfl hij
      | succ j => rfl
    | succ i =>
      cases j with
      | zero => rfl
      | succ j => exact ih i j a d (by omega)

theorem set_set_restore :
    ∀ (l : List (Option Nat)) (i : Nat), (l.set i none).set i (l.getD i none) = l
  | [], _ => rfl
  | _ :: _, 0 => rfl
  | x :: t, i + 1 => congrArg (x :: ·) (set_set_restore t i)

theorem countP_set_none_ge :
    ∀ (l : List (Option Nat)) (i : Nat),
      l.countP (fun c => c.isSome) ≤ (l.set i none).countP (fun c => c.isSome) + 1 := by
  intro l
  induction l with
  | nil => intro i; simp
  | cons x t ih =>
    intro i
    cases i with
    | zero => simp [List.countP_cons]; cases x <;> simp
    | succ i =>
      simp only [List.set_cons_succ, List.countP_cons]
      have := ih i
      omega

theorem getD_mem {α : Type} :
    ∀ (l : List α) (i : Nat) (d : α), i < l.length → l.getD i d ∈ l := by
  intro l
  induction l with
  | nil => intro i d h; exact absurd h (by simp)
  | cons x t ih =>
    intro i d h
    cases i with
    | zero => exact List.mem_cons_self x t
    | succ i => exact List.mem_cons_of_mem x (ih i d (by simpa using h))

theorem mem_getD {α : Type} (d : α) :
    ∀ (l : List α) (c : α), c ∈ l → ∃ i, i < l.length ∧ l.getD i d = c := by
  intro l
  induction l with
  | nil => intro c hc; exact absurd hc (by simp)
  | cons x t ih =>
    intro c hc
    rcases List.mem_cons.mp hc with rfl | hc
    · exact ⟨0, by simp, rfl⟩
    · obtain ⟨i, hi, hg⟩ := ih c hc
      exact ⟨i + 1, by simpa using hi, hg⟩

theorem getD_map_some :
    ∀ (sol : List Nat) (i : Nat), i < sol.length →
      (sol.map some).getD i none = some (sol.getD i 0) := by
  intro sol
  induction sol with
  | nil => intro i h; exact absurd h (by simp)
  | cons x t ih =>
    intro i h
    cases i with
    | zero => rfl
    | succ i => exact ih i (by simpa using h)

theorem getD_map_cellCh :
    ∀ (l : List (Option Nat)) (i : Nat), i < l.length →
      (l.map cellCh).getD i '.' = cellCh (l.getD i none) := by
  intro l
  induction l with
  | nil => intro i h; exact absurd h (by simp)
  | cons x t ih =>
    intro i h
    cases i with
    | zero => rfl
    | succ i => exact ih i (by simpa using h)

/-- Agreement of a working puzzle with the solution grid: every cell is blank
or holds the solution digit of its position. -/
def AgreesSol (sol : List Nat) (p : List (Option Nat)) : Prop :=
  ∀ i : Nat, p.getD i none = none ∨ p.getD i none = some (sol.getD i 0)

theorem digLoop_length {σ : Type} (uniq : List Char → σ → Bool × σ) (t : Nat) :
    ∀ (ps : List Nat) (p : List (Option Nat)) (s : σ),
      ((digLoop uniq t ps p s).1).length = p.length := by
  intro ps
  induction ps with
  | nil => intro p s; rfl
  | cons pos rest ih =>
    intro p s
    simp only [digLoop]
    cases hb : (uniq (puzzle_vec_to_string (p.set pos none)) s).1
    · rw [if_neg (show ¬(false = true) by simp), set_set_restore p pos]
      split
      · rfl
      · exact ih _ _
    · rw [if_pos rfl]
      split
      · exact List.length_set p pos none
      · rw [ih]
        exact List.length_set p pos none

theorem digLoop_count {σ : Type} (uniq : List Char → σ → Bool × σ) (t : Nat) :
    ∀ (ps : List Nat) (p : List (Option Nat)) (s : σ),
      t < p.countP (fun c => c.isSome) →
      t ≤ ((digLoop uniq t ps p s).1).countP (fun c => c.isSome) := by
  intro ps
  induction ps with
  | nil => intro p s h; exact Nat.le_of_lt h
  | cons pos rest ih =>
    intro p s h
    simp only [digLoop]
    cases hb : (uniq (puzzle_vec_to_string (p.set pos none)) s).1
    · rw [if_neg (show ¬(false = true) by simp), set_set_restore p pos]
      split
      · exact Nat.le_of_lt h
      · exact ih _ _ h
    · rw [if_pos rfl]
      have hge := countP_set_none_ge p pos
      split
      · rename_i hC
        show t ≤ List.countP (fun c => c.isSome) (p.set pos none)
        omega
      · rename_i hC
        exact ih _ _ (by omega)

theorem digLoop_agrees {σ : Type} (uniq : List Char → σ → Bool × σ) (t : Nat)
    (sol : List Nat) :
    ∀ (ps : List Nat) (p : List (Option Nat)) (s : σ),
      AgreesSol sol p → AgreesSol sol ((digLoop uniq t ps p s).1) := by
  intro ps
  induction ps with
  | nil => intro p s h; exact h
  | cons pos rest ih =>
    intro p s h
    simp only [digLoop]
    cases hb : (uniq (puzzle_vec_to_string (p.set pos none)) s).1
    · rw [if_neg (show ¬(false = true) by simp), set_set_restore p pos]
      split
      · exact h
      · exact ih _ _ h
    · rw [if_pos rfl]
      have h2 : AgreesSol sol (p.set pos none) := by
        intro i
        by_cases hip : pos = i
        · subst hip
          exact Or.inl (getD_set_self_none p pos)
        · rw [getD_set_ne p pos i none none hip]
          exact h i
      split
      · exact h2
      · exact ih _ _ h2

theorem digLoopT_fst {σ : Type} (uniq : List Char → σ → Bool × σ) (t : Nat) :
    ∀ (ps : List Nat) (p : List (Option Nat)) (s : σ),
      (digLoopT uniq t ps p s).1 = (digLoop uniq t ps p s).1 := by
  intro ps
  induction ps with
  | nil => intro p s; rfl
  | cons pos rest ih =>
    intro p s
    simp only [digLoopT, digLoop]
    cases hb : (uniq (puzzle_vec_to_string (p.set pos none)) s).1 <;>
      [rw [if_neg (show ¬(false = true) by simp)]; rw [if_pos (show true = true from rfl)]] <;>
      · split
        · rfl
        · exact ih _ _

theorem digLoopT_blanks {σ : Type} (uniq : List Char → σ → Bool × σ) (t : Nat) :
    ∀ (ps : List Nat) (p : List (Option Nat)) (s : σ) (i : Nat),
      ((digLoopT uniq t ps p s).1).getD i none = none →
      p.getD i none = none ∨
      ∃ ev ∈ (digLoopT uniq t ps p s).2.2, ev.pos = i ∧
        (uniq (puzzle_vec_to_string (ev.before.set i none)) ev.rngBefore).1 = true := by
  intro ps
  induction ps with
  | nil => intro p s i h; exact Or.inl h
  | cons pos rest ih =>
    intro p s i
    simp only [digLoopT]
    cases hb : (uniq (puzzle_vec_to_string (p.set pos none)) s).1
    · rw [if_neg (show ¬(false = true) by simp), set_set_restore p pos]
      split
      · intro h
        exact Or.inl h
      · intro h
        rcases ih _ _ i h with hn | ⟨ev, hm, hp, ha⟩
        · exact Or.inl hn
        · exact Or.inr ⟨ev, List.mem_cons_of_mem _ hm, hp, ha⟩
    · rw [if_pos rfl]
      split
      · intro h
        by_cases hip : pos = i
        · subst hip
          exact Or.inr ⟨⟨pos, p, s, true⟩, List.mem_singleton_self _, rfl, hb⟩
        · rw [getD_set_ne p pos i none none hip] at h
          exact Or.inl h
      · intro h
        rcases ih _ _ i h with hn | ⟨ev, hm, hp, ha⟩
        · by_cases hip : pos = i
          · subst hip
            exact Or.inr ⟨⟨pos, p, s, true⟩, List.mem_cons_self _ _, rfl, hb⟩
          · rw [getD_set_ne p pos i none none hip] at hn
            exact Or.inl hn
        · exact Or.inr ⟨ev, List.mem_cons_of_mem _ hm, hp, ha⟩

theorem cellCh_digit_ne_dot (d : Nat) (h1 : 1 ≤ d) (h9 : d ≤ 9) : cellCh (some d) ≠ '.' := by
  simp only [cellCh]
  interval_cases d <;> decide

theorem cellCh_digit_eq (d : Nat) (h9 : d ≤ 9) : cellCh (some d) = Char.ofNat (48 + d) := by
  simp only [cellCh]
  rw [Nat.mod_eq_of_lt (by omega)]

theorem agrees_init (solution : List Nat) : AgreesSol solution (solution.map some) := by
  intro i
  by_cases hi : i < solution.length
  · exact Or.inr (getD_map_some solution i hi)
  · refine Or.inl (List.getD_eq_default _ _ ?_)
    simpa using Nat.le_of_not_lt hi

theorem countP_init (solution : List Nat) :
    (solution.map some).countP (fun c => c.isSome) = solution.length := by
  rw [List.countP_map]
  have hcomp : ((fun (c : Option Nat) => c.isSome) ∘ (some : Nat → Option Nat)) =
      fun _ => true := rfl
  rw [hcomp, List.countP_true]

theorem generate_eq_ok {σ : Type} (gen : Nat → σ → Nat × σ)
    (uniq : List Char → σ → Bool × σ) (solution : List Nat) (t : Nat)
    (ht : t < 81) (rng : σ) :
    generate_puzzle_from_solution gen uniq solution t rng =
      .ok (puzzle_vec_to_string (digLoop uniq t
        (shuffle_indices gen rng (List.range NN)).1 (solution.map some)
        (shuffle_indices gen rng (List.range NN)).2).1) := by
  simp only [generate_puzzle_from_solution]
  rw [if_neg (by simp only [NN]; omega)]

theorem generate_events_eq {σ : Type} (gen : Nat → σ → Nat × σ)
    (uniq : List Char → σ → Bool × σ) (solution : List Nat) (t : Nat)
    (ht : t < 81) (rng : σ) :
    generate_events gen uniq solution t rng =
      (digLoopT uniq t (shuffle_indices gen rng (List.range NN)).1
        (solution.map some) (shuffle_indices gen rng (List.range NN)).2).2.2 := by
  simp only [generate_events]
  rw [if_neg (by simp only [NN]; omega)]

/-- C7: digging range guard — any target of 81 or more fails immediately with
the range error (before any shuffling or trial takes place), while every
target below 81 is accepted and generation returns a puzzle text. -/
theorem generate_target_range_guard {σ : Type} (gen : Nat → σ → Nat × σ)
    (uniq : List Char → σ → Bool × σ) (solution : List Nat) (target_clues : Nat)
    (rng : σ) :
    (81 ≤ target_clues →
      generate_puzzle_from_solution gen uniq solution target_clues rng =
        .error "clue_target must be less than 81") ∧
    (target_clues < 81 →
      ∃ out, generate_puzzle_from_solution gen uniq solution target_clues rng =
        .ok out) := by
  constructor
  · intro h
    simp only [generate_puzzle_from_solution]
    rw [if_pos (by simp only [NN]; omega)]
  · intro h
    exact ⟨_, generate_eq_ok gen uniq solution target_clues h rng⟩

/-- C7 witness: the range guard at targets 81 (rejected) and 30 (accepted)
for a concrete rng and oracle. -/
theorem generate_target_range_guard_witness :
    generate_puzzle_from_solution (fun (_ : Nat) (u : Unit) => (0, u))
        (fun _ u => (true, u)) (List.replicate 81 1) 81 () =
      .error "clue_target must be less than 81" ∧
    ∃ out, generate_puzzle_from_solution (fun (_ : Nat) (u : Unit) => (0, u))
        (fun _ u => (true, u)) (List.replicate 81 1) 30 () = .ok out :=
  ⟨(generate_target_range_guard _ _ _ 81 ()).1 (by omega),
   (generate_target_range_guard _ _ _ 30 ()).2 (by omega)⟩

theorem digLoop_bound_blanks {σ : Type} (uniq : List Char → σ → Bool × σ)
    (t : Nat) (solution : List Nat) (hlen : solution.length = 81)
    (hdig : ∀ d ∈ solution, 1 ≤ d ∧ d ≤ 9) (ht : t < 81)
    (ps : List Nat) (s : σ) :
    t ≤ (puzzle_vec_to_string
        (digLoop uniq t ps (solution.map some) s).1).countP (fun ch => ch ≠ '.') ∧
    ∀ i, i < 81 →
      (puzzle_vec_to_string (digLoop uniq t ps (solution.map some) s).1).getD i '.' = '.' →
      ∃ ev ∈ (digLoopT uniq t ps (solution.map some) s).2.2, ev.pos = i ∧
        (uniq (puzzle_vec_to_string (ev.before.set i none)) ev.rngBefore).1 = true := by
  have hfl : ((digLoop uniq t ps (solution.map some) s).1).length = 81 := by
    rw [digLoop_length]
    simp [hlen]
  have hagr : AgreesSol solution (digLoop uniq t ps (solution.map some) s).1 :=
    digLoop_agrees uniq t solution ps _ s (agrees_init solution)
  constructor
  · have hcnt : t ≤ ((digLoop uniq t ps (solution.map some) s).1).countP
        (fun c => c.isSome) := by
      apply digLoop_count
      rw [countP_init, hlen]
      omega
    rw [puzzle_vec_to_string_eq_map, List.countP_map]
    have hco : List.countP ((fun ch => decide (ch ≠ '.')) ∘ cellCh)
        (digLoop uniq t ps (solution.map some) s).1 =
        List.countP (fun c => c.isSome) (digLoop uniq t ps (solution.map some) s).1 := by
      apply List.countP_congr
      intro c hc
      obtain ⟨i, hi, hgd⟩ := mem_getD none _ c hc
      rcases hagr i with hnone | hsome
      · rw [hgd] at hnone
        subst hnone
        simp [cellCh]
      · rw [hgd] at hsome
        subst hsome
        have hd := hdig (solution.getD i 0)
          (getD_mem solution i 0 (by rw [hlen]; rw [hfl] at hi; exact hi))
        have hne := cellCh_digit_ne_dot (solution.getD i 0) hd.1 hd.2
        constructor
        · intro _
          rfl
        · intro _
          exact decide_eq_true hne
    rw [hco]
    exact hcnt
  · intro i hi hdot
    rw [puzzle_vec_to_string_eq_map,
      getD_map_cellCh _ i (by rw [hfl]; exact hi)] at hdot
    have hfin_none : ((digLoop uniq t ps (solution.map some) s).1).getD i none = none := by
      rcases hagr i with hnone | hsome
      · exact hnone
      · exfalso
        rw [hsome] at hdot
        have hd := hdig (solution.getD i 0)
          (getD_mem solution i 0 (by rw [hlen]; exact hi))
        exact cellCh_digit_ne_dot (solution.getD i 0) hd.1 hd.2 hdot
    rw [← digLoopT_fst uniq t ps (solution.map some) s] at hfin_none
    rcases digLoopT_blanks uniq t ps (solution.map some) s i hfin_none with
      hinit | ⟨ev, hm, hp, ha⟩
    · exfalso
      rw [getD_map_some solution i (by rw [hlen]; exact hi)] at hinit
      exact Option.noConfusion hinit
    · exact ⟨ev, hm, hp, ha⟩

/-- C2: for every 81-digit solution grid, target below 81, uniqueness oracle
and rng, generation succeeds with a puzzle text having at least target_clues
non-blank cells (never fewer), and every blank cell was blanked by a trial at
whose moment the oracle reported the puzzle (with exactly that cell freshly
blanked) still uniquely solvable. -/
theorem generate_clue_bound_and_blank_justified {σ : Type}
    (gen : Nat → σ → Nat × σ) (uniq : List Char → σ → Bool × σ)
    (solution : List Nat) (hlen : solution.length = 81)
    (hdig : ∀ d ∈ solution, 1 ≤ d ∧ d ≤ 9)
    (target_clues : Nat) (ht : target_clues < 81) (rng : σ) :
    ∃ out, generate_puzzle_from_solution gen uniq solution target_clues rng = .ok out ∧
      target_clues ≤ out.countP (fun ch => ch ≠ '.') ∧
      ∀ i, i < 81 → out.getD i '.' = '.' →
        ∃ ev ∈ generate_events gen uniq solution target_clues rng, ev.pos = i ∧
          (uniq (puzzle_vec_to_string (ev.before.set i none)) ev.rngBefore).1 = true := by
  obtain ⟨h1, h2⟩ := digLoop_bound_blanks uniq target_clues solution hlen hdig ht
    (shuffle_indices gen rng (List.range NN)).1 (shuffle_indices gen rng (List.range NN)).2
  refine ⟨_, generate_eq_ok gen uniq solution target_clues ht rng, h1, ?_⟩
  intro i hi hdot
  rw [generate_events_eq gen uniq solution target_clues ht rng]
  exact h2 i hi hdot

/-- C2 witness: the clue bound and blank justification at a concrete solution
grid, target, generator and always-unique oracle. -/
theorem generate_clue_bound_witness :
    (List.replicate 81 1).length = 81 ∧ (∀ d ∈ List.replicate 81 1, 1 ≤ d ∧ d ≤ 9) ∧
    (30 : Nat) < 81 ∧
    (∃ out, generate_puzzle_from_solution (fun (_ : Nat) (u : Unit) => (0, u))
        (fun _ u => (true, u)) (List.replicate 81 1) 30 () = .ok out ∧
      30 ≤ out.countP (fun ch => ch ≠ '.') ∧
      ∀ i, i < 81 → out.getD i '.' = '.' →
        ∃ ev ∈ generate_events (fun (_ : Nat) (u : Unit) => (0, u))
            (fun _ u => (true, u)) (List.replicate 81 1) 30 (), ev.pos = i ∧
          ((fun (_ : List Char) (u : Unit) => (true, u))
            (puzzle_vec_to_string (ev.before.set i none)) ev.rngBefore).1 = true) :=
  by
  refine ⟨by simp, fun d hd => by rw [List.eq_of_mem_replicate hd]; omega, by omega, ?_⟩
  exact generate_clue_bound_and_blank_justified _ _ _ (by simp)
    (fun d hd => by rw [List.eq_of_mem_replicate hd]; omega) 30 (by omega) ()

/-- C10: digging preserves the solution on filled cells — every non-'.'
character of the returned puzzle text is exactly the digit character of the
input solution at the same position. -/
theorem digLoop_preserves {σ : Type} (uniq : List Char → σ → Bool × σ)
    (t : Nat) (solution : List Nat) (hlen : solution.length = 81)
    (hdig : ∀ d ∈ solution, 1 ≤ d ∧ d ≤ 9) (ps : List Nat) (s : σ) :
    ∀ i, i < 81 →
      (puzzle_vec_to_string (digLoop uniq t ps (solution.map some) s).1).getD i '.' ≠ '.' →
      (puzzle_vec_to_string (digLoop uniq t ps (solution.map some) s).1).getD i '.' =
        Char.ofNat (48 + solution.getD i 0) := by
  have hfl : ((digLoop uniq t ps (solution.map some) s).1).length = 81 := by
    rw [digLoop_length]
    simp [hlen]
  have hagr : AgreesSol solution (digLoop uniq t ps (solution.map some) s).1 :=
    digLoop_agrees uniq t solution ps _ s (agrees_init solution)
  intro i hi hne
  rw [puzzle_vec_to_string_eq_map,
    getD_map_cellCh _ i (by rw [hfl]; exact hi)] at hne ⊢
  rcases hagr i with hnone | hsome
  · exact absurd (by rw [hnone]; rfl) hne
  · rw [hsome]
    have hd := hdig (solution.getD i 0)
      (getD_mem solution i 0 (by rw [hlen]; exact hi))
    exact cellCh_digit_eq (solution.getD i 0) hd.2

/-- C10: digging preserves the solution on filled cells — every non-'.'
character of the returned puzzle text is exactly the digit character of the
input solution at the same position. -/
theorem generate_preserves_solution_on_filled {σ : Type}
    (gen : Nat → σ → Nat × σ) (uniq : List Char → σ → Bool × σ)
    (solution : List Nat) (hlen : solution.length = 81)
    (hdig : ∀ d ∈ solution, 1 ≤ d ∧ d ≤ 9)
    (target_clues : Nat) (ht : target_clues < 81) (rng : σ) (out : List Char)
    (hout : generate_puzzle_from_solution gen uniq solution target_clues rng = .ok out) :
    ∀ i, i < 81 → out.getD i '.' ≠ '.' →
      out.getD i '.' = Char.ofNat (48 + solution.getD i 0) := by
  have hgen := generate_eq_ok gen uniq solution target_clues ht rng
  rw [hout] at hgen
  have hout_eq : out = puzzle_vec_to_string (digLoop uniq target_clues
      (shuffle_indices gen rng (List.range NN)).1 (solution.map some)
      (shuffle_indices gen rng (List.range NN)).2).1 := Except.ok.inj hgen
  have hmain := digLoop_preserves uniq target_clues solution hlen hdig
    (shuffle_indices gen rng (List.range NN)).1 (shuffle_indices gen rng (List.range NN)).2
  intro i hi hne
  rw [hout_eq] at hne ⊢
  exact hmain i hi hne

/-- C10 witness: the preservation property at a concrete solution, target,
generator and an oracle that rejects every removal (so all 81 cells stay). -/
theorem generate_preserves_solution_witness :
    ∃ out, generate_puzzle_from_solution (fun (_ : Nat) (u : Unit) => (0, u))
        (fun _ u => (false, u)) (List.replicate 81 2) 30 () = .ok out ∧
      ∀ i, i < 81 → out.getD i '.' ≠ '.' →
        out.getD i '.' = Char.ofNat (48 + (List.replicate 81 2).getD i 0) := by
  cases hE : generate_puzzle_from_solution (fun (_ : Nat) (u : Unit) => (0, u))
      (fun _ u => (false, u)) (List.replicate 81 2) 30 () with
  | error e =>
    have hok : (generate_puzzle_from_solution (fun (_ : Nat) (u : Unit) => (0, u))
        (fun _ u => (false, u)) (List.replicate 81 2) 30 ()).isOk = true := by decide
    rw [hE] at hok
    exact Bool.noConfusion hok
  | ok out =>
    exact ⟨out, rfl, generate_preserves_solution_on_filled _ _ _ (by simp)
      (fun d hd => by rw [List.eq_of_mem_replicate hd]; omega) 30 (by omega) () out hE⟩

/-- Digit loop of parse_solution_from_json from main.rs: first error wins,
every entry must be a number in 1..9. -/
def parse_digits : List Json → Except String (List Nat)
  | [] => .ok []
  | item :: rest =>
    match item.as_u64 with
    | none => .error "solution digits must be numbers"
    | some n =>
      if n < 1 ∨ 9 < n then .error "solution digits must be 1-9"
      else do
        let out ← parse_digits rest
        return n :: out

/-- parse_solution_from_json from main.rs. -/
def parse_solution_from_json (value : Json) : Except String (List Nat) :=
  match (value.getField "solution").bind Json.as_array with
  | none => .error "solution missing"
  | some sol =>
    if sol.length ≠ NN then .error "solution must have 81 digits"
    else parse_digits sol

/-- char::to_digit(10) from Rust for the radix-10 case. -/
def to_digit10 (c : Char) : Option Nat :=
  if 48 ≤ c.toNat ∧ c.toNat ≤ 57 then some (c.toNat - 48) else none

/-- Outcome of the digit-comparison loop of check_puzzle_handler. -/
inductive CmpResult where
  | badChar
  | mismatch
  | done (incomplete : Bool)
deriving DecidableEq

/-- Comparison loop of check_puzzle_handler from main.rs: '.' and '0' mark
blanks, every other character must be a digit 1-9 (else a 400 format error),
and the first filled cell differing from the stored solution short-circuits
to incorrect. -/
def compare_loop (solution : List Nat) : List Char → Nat → Bool → CmpResult
  | [], _, incomplete => .done incomplete
  | ch :: rest, idx, incomplete =>
    if ch = '.' ∨ ch = '0' then compare_loop solution rest (idx + 1) true
    else
      match to_digit10 ch with
      | some d =>
        if 1 ≤ d ∧ d ≤ 9 then
          if d ≠ solution.getD idx 0 then .mismatch
          else compare_loop solution rest (idx + 1) incomplete
        else .badChar
      | none => .badChar

/-- HTTP-level outcome of the check endpoint: an error response with its
status code, or the JSON body's status string. -/
inductive CheckResp where
  | err (code : Nat) (msg : String)
  | ok (status : String)
deriving DecidableEq

/-- Response of the check endpoint together with its side effects on the
date's counters: the deltas applied to checks and solves. -/
structure CheckEffect where
  resp : CheckResp
  checks_delta : Nat
  solves_delta : Nat
deriving DecidableEq

/-- str::trim of Rust applied to the submitted grid: whitespace dropped from
both ends. -/
def rustTrim (s : List Char) : List Char :=
  ((s.dropWhile Char.isWhitespace).reverse.dropWhile Char.isWhitespace).reverse

/-- check_puzzle_handler from main.rs.  stored describes today's published
row: none when no published puzzle exists (404), some none when its
puzzle_json string is not valid JSON (500), some (some v) when it parses to
the value v.  Mirroring the source order: the unavailable return on a bad
stored solution happens before the checks increment, the per-character
validation happens after it, and solves is bumped only on complete. -/
def check_puzzle_handler (stored : Option (Option Json)) (grid_raw : List Char) :
    CheckEffect :=
  let grid := rustTrim grid_raw
  if grid.length ≠ NN then ⟨.err 400 "grid must be exactly 81 characters", 0, 0⟩
  else
    match stored with
    | none => ⟨.err 404 "Puzzle not published", 0, 0⟩
    | some none => ⟨.err 500 "Invalid puzzle data", 0, 0⟩
    | some (some puzzle_json) =>
      match parse_solution_from_json puzzle_json with
      | .error _ => ⟨.ok "unavailable", 0, 0⟩
      | .ok solution =>
        match compare_loop solution grid 0 false with
        | .badChar => ⟨.err 400 "grid must contain digits 1-9 or '.'", 1, 0⟩
        | .mismatch => ⟨.ok "incorrect", 1, 0⟩
        | .done incomplete =>
          if incomplete then ⟨.ok "partial", 1, 0⟩ else ⟨.ok "complete", 1, 1⟩

/-- Blank marks accepted by the comparison loop. -/
def isBlankChar (c : Char) : Bool := c = '.' || c = '0'

/-- Characters whose to_digit(10) value lies in 1..9. -/
def isDigitChar19 (c : Char) : Bool := 49 ≤ c.toNat && c.toNat ≤ 57

/-- Positional mismatch of a submitted grid against a stored solution: some
position holds a digit character whose value differs from the solution. -/
def gridMismatch (grid : List Char) (sol : List Nat) : Prop :=
  ∃ k, k < grid.length ∧ isDigitChar19 (grid.getD k ' ') = true ∧
    (grid.getD k ' ').toNat - 48 ≠ sol.getD k 0

/-- Presence of at least one blank cell in a submitted grid. -/
def gridBlank (grid : List Char) : Prop := ∃ c ∈ grid, isBlankChar c = true

theorem compare_loop_eq (solution : List Nat) :
    ∀ (cs : List Char) (idx : Nat) (inc : Bool),
      (∀ c ∈ cs, isBlankChar c = true ∨ isDigitChar19 c = true) →
      compare_loop solution cs idx inc =
        if ∃ k, k < cs.length ∧ isDigitChar19 (cs.getD k ' ') = true ∧
            (cs.getD k ' ').toNat - 48 ≠ solution.getD (idx + k) 0
        then .mismatch
        else .done (inc || cs.any isBlankChar) := by
  intro cs
  induction cs with
  | nil =>
    intro idx inc hv
    rw [if_neg (by rintro ⟨k, hk, _⟩; exact absurd hk (by simp))]
    simp [compare_loop]
  | cons c rest ih =>
    intro idx inc hv
    have hrest : ∀ x ∈ rest, isBlankChar x = true ∨ isDigitChar19 x = true :=
      fun x hx => hv x (List.mem_cons_of_mem c hx)
    rcases hv c (List.mem_cons_self c rest) with hb | hd
    · -- blank head: '.' or '0'
      have hb' : c = '.' ∨ c = '0' := by
        simpa [isBlankChar] using hb
      have hnd : isDigitChar19 c = false := by
        rcases hb' with rfl | rfl <;> decide
      have hshift : (∃ k, k < rest.length + 1 ∧
            isDigitChar19 ((c :: rest).getD k ' ') = true ∧
            ((c :: rest).getD k ' ').toNat - 48 ≠ solution.getD (idx + k) 0) ↔
          (∃ k, k < rest.length ∧ isDigitChar19 (rest.getD k ' ') = true ∧
            (rest.getD k ' ').toNat - 48 ≠ solution.getD (idx + 1 + k) 0) := by
        constructor
        · rintro ⟨k, hk, hdg, hne⟩
          cases k with
          | zero =>
            rw [List.getD_cons_zero, hnd] at hdg
            exact Bool.noConfusion hdg
          | succ j =>
            refine ⟨j, by omega, by simpa using hdg, ?_⟩
            rw [List.getD_cons_succ] at hne
            have harith : idx + (j + 1) = idx + 1 + j := by omega
            rw [harith] at hne
            exact hne
        · rintro ⟨j, hj, hdg, hne⟩
          refine ⟨j + 1, by omega, by simpa using hdg, ?_⟩
          rw [List.getD_cons_succ]
          have harith : idx + (j + 1) = idx + 1 + j := by omega
          rw [harith]
          exact hne
      have hstep : compare_loop solution (c :: rest) idx inc =
          compare_loop solution rest (idx + 1) true := by
        simp only [compare_loop, if_pos hb']
      rw [hstep, ih (idx + 1) true hrest]
      have hany : (c :: rest).any isBlankChar = true := by
        simp [hb]
      by_cases hQ : ∃ k, k < rest.length ∧ isDigitChar19 (rest.getD k ' ') = true ∧
          (rest.getD k ' ').toNat - 48 ≠ solution.getD (idx + 1 + k) 0
      · rw [if_pos hQ, if_pos (by rw [List.length_cons]; exact hshift.mpr hQ)]
      · rw [if_neg hQ, if_neg (by rw [List.length_cons]; exact fun h => hQ (hshift.mp h))]
        rw [hany]
        simp
    · -- digit head in '1'..'9'
      have hd' : 49 ≤ c.toNat ∧ c.toNat ≤ 57 := by
        simpa [isDigitChar19] using hd
      have hnb : ¬(c = '.' ∨ c = '0') := by
        rintro (rfl | rfl) <;> revert hd <;> decide
      have hdig : to_digit10 c = some (c.toNat - 48) := by
        simp only [to_digit10]
        rw [if_pos (by omega)]
      have hguard : 1 ≤ c.toNat - 48 ∧ c.toNat - 48 ≤ 9 := by omega
      by_cases hmis : c.toNat - 48 ≠ solution.getD idx 0
      · have hstep : compare_loop solution (c :: rest) idx inc = .mismatch := by
          simp only [compare_loop, if_neg hnb, hdig, if_pos hguard, if_pos hmis]
        rw [hstep, if_pos ?_]
        refine ⟨0, by simp, by rw [List.getD_cons_zero]; exact hd, ?_⟩
        rw [List.getD_cons_zero, Nat.add_zero]
        exact hmis
      · have hstep : compare_loop solution (c :: rest) idx inc =
            compare_loop solution rest (idx + 1) inc := by
          simp only [compare_loop, if_neg hnb, hdig, if_pos hguard, if_neg hmis]
        have hshift2 : (∃ k, k < rest.length + 1 ∧
              isDigitChar19 ((c :: rest).getD k ' ') = true ∧
              ((c :: rest).getD k ' ').toNat - 48 ≠ solution.getD (idx + k) 0) ↔
            (∃ k, k < rest.length ∧ isDigitChar19 (rest.getD k ' ') = true ∧
              (rest.getD k ' ').toNat - 48 ≠ solution.getD (idx + 1 + k) 0) := by
          constructor
          · rintro ⟨k, hk, hdg, hne⟩
            cases k with
            | zero =>
              rw [List.getD_cons_zero, Nat.add_zero] at hne
              exact absurd hne hmis
            | succ j =>
              refine ⟨j, by omega, by simpa using hdg, ?_⟩
              rw [List.getD_cons_succ] at hne
              have harith : idx + (j + 1) = idx + 1 + j := by omega
              rw [harith] at hne
              exact hne
          · rintro ⟨j, hj, hdg, hne⟩
            refine ⟨j + 1, by omega, by simpa using hdg, ?_⟩
            rw [List.getD_cons_succ]
            have harith : idx + (j + 1) = idx + 1 + j := by omega
            rw [harith]
            exact hne
        rw [hstep, ih (idx + 1) inc hrest]
        have hnblank : isBlankChar c = false := by
          simp only [isBlankChar]
          rcases hb : (c = '.' : Bool) with _ | _
          · rcases hb0 : (c = '0' : Bool) with _ | _
            · rfl
            · exact absurd (by simpa using hb0) (fun h => hnb (Or.inr h))
          · exact absurd (by simpa using hb) (fun h => hnb (Or.inl h))
        have hany : (c :: rest).any isBlankChar = rest.any isBlankChar := by
          simp [List.any_cons, hnblank]
        by_cases hQ : ∃ k, k < rest.length ∧ isDigitChar19 (rest.getD k ' ') = true ∧
            (rest.getD k ' ').toNat - 48 ≠ solution.getD (idx + 1 + k) 0
        · rw [if_pos hQ, if_pos (by rw [List.length_cons]; exact hshift2.mpr hQ)]
        · rw [if_neg hQ, if_neg (by rw [List.length_cons]; exact fun h => hQ (hshift2.mp h))]
          rw [hany]

/-- C5: solve-verification classification — given a well-formed 81-character
submission and a valid stored solution, the result is incorrect exactly when
some filled cell differs from the stored solution (the loop short-circuits at
the first such cell), partial when no filled cell mismatches but some cell is
blank, and complete when no cell is blank and none mismatches; checks is
bumped in all three cases and solves only on complete. -/
theorem check_classification (v : Json) (grid_raw : List Char) (sol : List Nat)
    (hsol : parse_solution_from_json v = .ok sol)
    (hlen : (rustTrim grid_raw).length = 81)
    (hval : ∀ c ∈ rustTrim grid_raw, isBlankChar c = true ∨ isDigitChar19 c = true) :
    (gridMismatch (rustTrim grid_raw) sol →
      check_puzzle_handler (some (some v)) grid_raw = ⟨.ok "incorrect", 1, 0⟩) ∧
    (¬ gridMismatch (rustTrim grid_raw) sol → gridBlank (rustTrim grid_raw) →
      check_puzzle_handler (some (some v)) grid_raw = ⟨.ok "partial", 1, 0⟩) ∧
    (¬ gridMismatch (rustTrim grid_raw) sol → ¬ gridBlank (rustTrim grid_raw) →
      check_puzzle_handler (some (some v)) grid_raw = ⟨.ok "complete", 1, 1⟩) := by
  have hcl := compare_loop_eq sol (rustTrim grid_raw) 0 false hval
  have hmm : (∃ k, k < (rustTrim grid_raw).length ∧
      isDigitChar19 ((rustTrim grid_raw).getD k ' ') = true ∧
      ((rustTrim grid_raw).getD k ' ').toNat - 48 ≠ sol.getD (0 + k) 0) ↔
      gridMismatch (rustTrim grid_raw) sol := by
    unfold gridMismatch
    constructor <;> rintro ⟨k, hk, h1, h2⟩ <;>
      exact ⟨k, hk, h1, by simpa [Nat.zero_add] using h2⟩
  refine ⟨?_, ?_, ?_⟩
  · intro hm
    simp only [check_puzzle_handler]
    rw [if_neg (by simp [NN, hlen])]
    simp only [hsol]
    rw [hcl, if_pos (hmm.mpr hm)]
  · intro hm hbl
    simp only [check_puzzle_handler]
    rw [if_neg (by simp [NN, hlen])]
    simp only [hsol]
    rw [hcl, if_neg (fun h => hm (hmm.mp h))]
    have hany : (rustTrim grid_raw).any isBlankChar = true := List.any_eq_true.mpr hbl
    rw [hany]
    rfl
  · intro hm hbl
    simp only [check_puzzle_handler]
    rw [if_neg (by simp [NN, hlen])]
    simp only [hsol]
    rw [hcl, if_neg (fun h => hm (hmm.mp h))]
    have hany : (rustTrim grid_raw).any isBlankChar = false := by
      cases hA : (rustTrim grid_raw).any isBlankChar
      · rfl
      · exact absurd (List.any_eq_true.mp hA) hbl
    rw [hany]
    rfl

/-- C5 witness: the incorrect classification at a concrete stored solution
(81 ones) and a submission whose first cell holds the digit 2. -/
theorem check_classification_witness :
    parse_solution_from_json (Json.obj [("solution", Json.arr (List.replicate 81 (Json.num 1)))]) =
      .ok (List.replicate 81 1) ∧
    (rustTrim ('2' :: List.replicate 80 '1')).length = 81 ∧
    (∀ c ∈ rustTrim ('2' :: List.replicate 80 '1'),
      isBlankChar c = true ∨ isDigitChar19 c = true) ∧
    gridMismatch (rustTrim ('2' :: List.replicate 80 '1')) (List.replicate 81 1) ∧
    check_puzzle_handler
        (some (some (Json.obj [("solution", Json.arr (List.replicate 81 (Json.num 1)))])))
        ('2' :: List.replicate 80 '1') = ⟨.ok "incorrect", 1, 0⟩ := by
  have hs : parse_solution_from_json
      (Json.obj [("solution", Json.arr (List.replicate 81 (Json.num 1)))]) =
      .ok (List.replicate 81 1) := by decide
  have hl : (rustTrim ('2' :: List.replicate 80 '1')).length = 81 := by decide
  have hv : ∀ c ∈ rustTrim ('2' :: List.replicate 80 '1'),
      isBlankChar c = true ∨ isDigitChar19 c = true := by decide
  have hm : gridMismatch (rustTrim ('2' :: List.replicate 80 '1')) (List.replicate 81 1) :=
    ⟨0, by decide⟩
  exact ⟨hs, hl, hv, hm, (check_classification _ _ _ hs hl hv).1 hm⟩

/-- C4 counterexample: for a published puzzle whose stored JSON parses but
carries no solution field, the handler answers unavailable with a checks
delta of 0, not 1 — the early unavailable return precedes the
check-recording statement, so the claimed increment does not happen. -/
theorem check_unavailable_counterexample :
    check_puzzle_handler (some (some (Json.obj []))) (List.replicate 81 '1') =
      ⟨.ok "unavailable", 0, 0⟩ ∧
    (check_puzzle_handler (some (some (Json.obj []))) (List.replicate 81 '1')).checks_delta
      ≠ 1 := by
  constructor <;> decide

/-- C4 (amended): when a published record exists and its JSON parses but the
persisted solution is missing or malformed, verification degrades to the
special unavailable status rather than an error, but no counter is touched:
the checks increment sits after the early unavailable return. -/
theorem check_unavailable_on_bad_solution (v : Json) (grid_raw : List Char) (e : String)
    (hlen : (rustTrim grid_raw).length = 81)
    (hbad : parse_solution_from_json v = .error e) :
    check_puzzle_handler (some (some v)) grid_raw = ⟨.ok "unavailable", 0, 0⟩ := by
  simp only [check_puzzle_handler]
  rw [if_neg (by simp [NN, hlen])]
  simp only [hbad]

/-- C4 witness: the unavailable degradation at a concrete corrupt record. -/
theorem check_unavailable_witness :
    (rustTrim (List.replicate 81 '1')).length = 81 ∧
    parse_solution_from_json (Json.obj []) = .error "solution missing" ∧
    check_puzzle_handler (some (some (Json.obj []))) (List.replicate 81 '1') =
      ⟨.ok "unavailable", 0, 0⟩ :=
  ⟨by decide, by decide,
   check_unavailable_on_bad_solution (Json.obj []) (List.replicate 81 '1')
     "solution missing" (by decide) (by decide)⟩

/-- C3 counterexample: an 81-character submission containing the invalid
character x is rejected with the 400 format error, yet the checks counter is
incremented (delta 1, not 0) because the per-character validation runs after
the increment. -/
theorem check_format_error_increments_checks :
    check_puzzle_handler
        (some (some (Json.obj [("solution", Json.arr (List.replicate 81 (Json.num 1)))])))
        (List.replicate 81 'x') =
      ⟨.err 400 "grid must contain digits 1-9 or '.'", 1, 0⟩ ∧
    (check_puzzle_handler
        (some (some (Json.obj [("solution", Json.arr (List.replicate 81 (Json.num 1)))])))
        (List.replicate 81 'x')).checks_delta ≠ 0 := by
  constructor <;> decide

/-- C3 (amended): the checks counter is incremented exactly when the
submission passes the length check and today's published record exists with
parseable JSON and a valid stored solution — wrong-length submissions leave
the counters untouched, but invalid characters detected during comparison
still increment checks. -/
theorem checks_delta_iff (stored : Option (Option Json)) (grid_raw : List Char) :
    (check_puzzle_handler stored grid_raw).checks_delta = 1 ↔
      ((rustTrim grid_raw).length = 81 ∧
       ∃ v sol, stored = some (some v) ∧ parse_solution_from_json v = .ok sol) := by
  simp only [check_puzzle_handler]
  by_cases hl : (rustTrim grid_raw).length = 81
  · rw [if_neg (by simp [NN, hl])]
    cases stored with
    | none => simp
    | some o =>
      cases o with
      | none => simp
      | some v =>
        cases hp : parse_solution_from_json v with
        | error e => simp [hp, hl]
        | ok sol =>
          cases hcmp : compare_loop sol (rustTrim grid_raw) 0 false with
          | badChar => simp [hp, hcmp, hl]
          | mismatch => simp [hp, hcmp, hl]
          | done inc =>
            cases inc <;> simp [hp, hcmp, hl]
  · rw [if_pos (by simp [NN]; exact hl)]
    simp [hl]

/-- Kind-collection loop of variants_from_constraints from main.rs. -/
def constraint_kinds : List Json → Except String (List String)
  | [] => .ok []
  | item :: rest =>
    match (item.getField "type").bind Json.as_str with
    | none => .error "constraint missing type"
    | some kind => do
      let out ← constraint_kinds rest
      return kind :: out

/-- Loop of dedupe_variants from main.rs, with the HashSet of seen tags
modelled as a list. -/
def dedupe_aux (seen : List String) : List String → List String
  | [] => []
  | item :: rest =>
    if item ∈ seen then dedupe_aux seen rest
    else item :: dedupe_aux (item :: seen) rest

/-- dedupe_variants from main.rs. -/
def dedupe_variants (input : List String) : List String := dedupe_aux [] input

/-- variants_from_constraints from main.rs. -/
def variants_from_constraints (constraints : List Json) : Except String (List String) :=
  (constraint_kinds constraints).map dedupe_variants

/-- ParsedPuzzleJson from main.rs. -/
structure ParsedPuzzleJson where
  puzzle : String
  constraints : List Json

/-- parse_puzzle_json from main.rs; its argument is the serde parse result of
the raw payload string (none when that string is not valid JSON). -/
def parse_puzzle_json : Option Json → Except String ParsedPuzzleJson
  | none => .error "invalid JSON"
  | some value =>
    match (value.getField "puzzle").bind Json.as_str with
    | none => .error "missing puzzle string"
    | some p =>
      .ok ⟨p, ((value.getField "constraints").bind Json.as_array).getD []⟩

/-- One stored puzzle row as admin_create_handler writes it. -/
structure PuzzleRecord where
  status : String
  puzzle_json : String
  svg : Option String
  title : Option String
  author : Option String
  difficulty : Option Int
  variants : List String
  published_at_utc : Option String

/-- AdminCreateRequest from main.rs; puzzle_json_value is the serde parse
result of the raw puzzle_json string. -/
structure AdminCreateRequest where
  date_utc : String
  puzzle_json : String
  puzzle_json_value : Option Json
  svg : Option String
  variants : Option (List String)
  status : Option String
  name : Option String
  author : Option String
  difficulty : Option Int
  overwrite : Option Bool

/-- Response of the create endpoint: 409 conflict, 400 bad request, or the
created/updated record echo. -/
inductive CreateResp where
  | conflict
  | badRequest (msg : String)
  | created (date_utc : String)
deriving DecidableEq

/-- admin_create_handler from main.rs over the date-keyed store.  render
abstracts render_puzzle_svg applied to the engine constraints built from the
parsed specs, and now the current timestamp.  With overwrite=false and an
existing record for the date the handler returns the conflict before any
parsing, rendering or write; otherwise it upserts the assembled record. -/
def admin_create_handler (render : String → List VariantSpec → Except String String)
    (now : String) (store : String → Option PuzzleRecord)
    (req : AdminCreateRequest) : CreateResp × (String → Option PuzzleRecord) :=
  let overwrite := req.overwrite.getD true
  if overwrite = false ∧ (store req.date_utc).isSome then (.conflict, store)
  else
    match parse_puzzle_json req.puzzle_json_value with
    | .error e => (.badRequest e, store)
    | .ok parsed =>
      match (match req.variants with
             | some list => Except.ok (dedupe_variants list)
             | none => variants_from_constraints parsed.constraints :
             Except String (List String)) with
      | .error e => (.badRequest e, store)
      | .ok variants =>
        match (match req.svg with
               | some svg => Except.ok (some svg)
               | none =>
                 match constraints_from_json parsed.constraints with
                 | .error e => .error e
                 | .ok specs =>
                   match render parsed.puzzle specs with
                   | .error e => .error e
                   | .ok svg => .ok (some svg) :
               Except String (Option String)) with
        | .error e => (.badRequest e, store)
        | .ok svg =>
          let status := req.status.getD "draft"
          let published_at := if status = "published" then some now else none
          let rcd : PuzzleRecord :=
            ⟨status, req.puzzle_json, svg, req.name, req.author, req.difficulty,
             variants, published_at⟩
          (.created req.date_utc,
           fun d => if d = req.date_utc then some rcd else store d)

/-- admin_get_handler from main.rs reduced to its store lookup (the HTTP
layer turns none into a 404). -/
def admin_get_handler (store : String → Option PuzzleRecord)
    (date_utc : String) : Option PuzzleRecord :=
  store date_utc

/-- C8: create with overwrite=false on an existing date fails with a conflict
and performs no mutation — the store comes back unchanged and a subsequent
get still returns the prior record intact. -/
theorem admin_create_conflict_no_mutation
    (render : String → List VariantSpec → Except String String) (now : String)
    (store : String → Option PuzzleRecord) (req : AdminCreateRequest)
    (r : PuzzleRecord) (hov : req.overwrite = some false)
    (hex : store req.date_utc = some r) :
    admin_create_handler render now store req = (.conflict, store) ∧
    admin_get_handler (admin_create_handler render now store req).2 req.date_utc =
      some r := by
  have hcond : (req.overwrite.getD true) = false ∧ (store req.date_utc).isSome := by
    rw [hov, hex]
    exact ⟨rfl, rfl⟩
  have h : admin_create_handler render now store req = (.conflict, store) := by
    simp only [admin_create_handler]
    rw [if_pos hcond]
  refine ⟨h, ?_⟩
  rw [h]
  exact hex

/-- C8 witness: the conflict guard at a concrete store holding one record and
a create request with overwrite=false on the same date. -/
theorem admin_create_conflict_witness :
    (AdminCreateRequest.mk "2024-01-01" "x" none none none none none none none
        (some false)).overwrite = some false ∧
    (fun d => if d = "2024-01-01"
        then some (PuzzleRecord.mk "draft" "x" none none none none [] none)
        else none) "2024-01-01" =
      some (PuzzleRecord.mk "draft" "x" none none none none [] none) ∧
    (admin_create_handler (fun _ _ => .ok "") "t"
        (fun d => if d = "2024-01-01"
          then some (PuzzleRecord.mk "draft" "x" none none none none [] none)
          else none)
        (AdminCreateRequest.mk "2024-01-01" "x" none none none none none none none
          (some false)) =
      (.conflict, fun d => if d = "2024-01-01"
          then some (PuzzleRecord.mk "draft" "x" none none none none [] none)
          else none) ∧
     admin_get_handler
        (admin_create_handler (fun _ _ => .ok "") "t"
          (fun d => if d = "2024-01-01"
            then some (PuzzleRecord.mk "draft" "x" none none none none [] none)
            else none)
          (AdminCreateRequest.mk "2024-01-01" "x" none none none none none none none
            (some false))).2 "2024-01-01" =
      some (PuzzleRecord.mk "draft" "x" none none none none [] none)) :=
  ⟨rfl, by simp,
   admin_create_conflict_no_mutation (fun _ _ => .ok "") "t" _ _
     (PuzzleRecord.mk "draft" "x" none none none none [] none) rfl (by simp)⟩

end Makudoku

